import Mathlib

/-!
Verification development for the daily headline collector
(`daily-headline-scraper/daily_headline_collector.py`).

The Python source is shallowly embedded below:
* strings are Lean `String`s; Python `str.lower()` / `str.strip()` /
  substring containment are modelled character-exactly for ASCII text;
* a pandas `DataFrame` loaded from disk is a `RawFrame` (a column list plus
  rows of column/value pairs); a frame known to have exactly the three
  pipeline columns is a `List Record`;
* `random.sample(l, n)` is modelled by an explicit list of chosen positions
  that is required to be duplicate-free and in range (the support of a
  uniform sample without replacement);
* network attempts are modelled by their observable outcomes
  (an HTTP response with a status code and parsed candidate text nodes,
  a transport error, or any other in-attempt exception); Python exception
  propagation is an `Except` result.
-/

namespace HeadlineCollector

/-- Whitespace characters removed by Python `str.strip()` (ASCII range). -/
def isPySpace (c : Char) : Bool :=
  c == ' ' || c == '\t' || c == '\n' || c == '\r' || c == '\x0b' || c == '\x0c'

/-- Strip leading and trailing whitespace from a character list. -/
def stripChars (l : List Char) : List Char :=
  ((l.dropWhile isPySpace).reverse.dropWhile isPySpace).reverse

/-- Python `s.strip()`. -/
def pyStrip (s : String) : String := String.mk (stripChars s.toList)

/-- Python `s.lower()` (ASCII letters; the scraped keywords are ASCII). -/
def pyLower (s : String) : String := String.mk (s.toList.map Char.toLower)

/-- CanonicalKey: the code's normalization `text.lower().strip()`, used for
every identity comparison (within-source dedup, merge dedup, report delta). -/
def canonKey (s : String) : String := pyStrip (pyLower s)

/-- Substring search over character lists (Python `pat in hay`). -/
def charsContain (hay pat : List Char) : Bool :=
  match hay with
  | [] => pat.isEmpty
  | _ :: t => pat.isPrefixOf hay || charsContain t pat

/-- Python substring containment `pat in s`. -/
def containsSub (s pat : String) : Bool := charsContain s.toList pat.toList

/-- One row of the three-column headline dataset. -/
structure Record where
  headline : String
  source : String
  collection_date : String
deriving DecidableEq

/-- The dedup key of a record: `headline.lower().strip()`
(`headline_normalized` in the code). -/
def recKey (r : Record) : String := canonKey r.headline

/-- Keep-first deduplication by canonical key, the semantics of
`drop_duplicates(subset=['headline_normalized'], keep='first')`. -/
def dedupByKey : List Record → List String → List Record
  | [], _ => []
  | r :: rs, seen =>
      if recKey r ∈ seen then dedupByKey rs seen
      else r :: dedupByKey rs (recKey r :: seen)

/-- `combined['headline_normalized'] = combined['headline'].str.lower().str.strip()`:
pair every record with its normalized-key column. -/
def addNorm (l : List Record) : List (Record × String) :=
  l.map (fun r => (r, recKey r))

/-- `drop_duplicates(subset=['headline_normalized'], keep='first')` over rows
carrying the normalized column. -/
def dropDupNorm : List (Record × String) → List String → List (Record × String)
  | [], _ => []
  | p :: ps, seen =>
      if p.2 ∈ seen then dropDupNorm ps seen
      else p :: dropDupNorm ps (p.2 :: seen)

/-- Lines 940-946 of the collector: add the normalized column, drop duplicate
keys keeping the first row, then drop the normalized column again. -/
def dedupPipeline (l : List Record) : List Record :=
  (dropDupNorm (addNorm l) []).map Prod.fst

theorem dropDupNorm_addNorm (l : List Record) :
    ∀ seen, (dropDupNorm (addNorm l) seen).map Prod.fst = dedupByKey l seen := by
  induction l with
  | nil => intro seen; rfl
  | cons r t ih =>
      intro seen
      simp only [addNorm, List.map_cons] at *
      by_cases h : recKey r ∈ seen
      · simp only [dropDupNorm, dedupByKey, h, if_pos]
        exact ih seen
      · simp only [dropDupNorm, dedupByKey, h, if_neg, not_false_iff, List.map_cons]
        exact congrArg (r :: ·) (ih (recKey r :: seen))

theorem dedupPipeline_eq (l : List Record) : dedupPipeline l = dedupByKey l [] :=
  dropDupNorm_addNorm l []

theorem dedupByKey_keys_spec (l : List Record) :
    ∀ seen, (((dedupByKey l seen).map recKey).Nodup) ∧
      ∀ k ∈ (dedupByKey l seen).map recKey, k ∉ seen := by
  induction l with
  | nil => intro seen; simp [dedupByKey]
  | cons r t ih =>
      intro seen
      by_cases h : recKey r ∈ seen
      · simpa [dedupByKey, h] using ih seen
      · have ihr := ih (recKey r :: seen)
        refine ⟨?_, ?_⟩
        · simp only [dedupByKey, h, if_neg, not_false_iff, List.map_cons, List.nodup_cons]
          refine ⟨fun hmem => ?_, ihr.1⟩
          exact (ihr.2 _ hmem) (List.mem_cons_self _ _)
        · intro k hk
          simp only [dedupByKey, h, if_neg, not_false_iff, List.map_cons, List.mem_cons] at hk
          rcases hk with rfl | hk
          · exact h
          · intro hks
            exact (ihr.2 _ hk) (List.mem_cons_of_mem _ hks)

theorem find?_dedupByKey (l : List Record) :
    ∀ (seen : List String) (k : String), k ∉ seen →
      (dedupByKey l seen).find? (fun x => recKey x == k)
        = l.find? (fun x => recKey x == k) := by
  induction l with
  | nil => intro seen k _; rfl
  | cons r t ih =>
      intro seen k hk
      by_cases h : recKey r ∈ seen
      · have hne : (recKey r == k) = false := by
          by_cases he : recKey r = k
          · exact absurd (he ▸ h) hk
          · simp [he]
        simp only [dedupByKey, h, if_pos, List.find?_cons, hne]
        exact ih seen k hk
      · by_cases he : recKey r = k
        · subst he
          simp [dedupByKey, h, List.find?_cons]
        · have hne : (recKey r == k) = false := by simp [he]
          simp only [dedupByKey, h, if_neg, not_false_iff, List.find?_cons, hne]
          refine ih (recKey r :: seen) k ?_
          intro hmem
          rcases List.mem_cons.mp hmem with h1 | h1
          · exact he h1.symm
          · exact hk h1

theorem length_dedupByKey (l : List Record) :
    ∀ seen : List String,
      (dedupByKey l seen).length
        = (((l.map recKey).toFinset) \ seen.toFinset).card := by
  induction l with
  | nil => intro seen; simp [dedupByKey]
  | cons r t ih =>
      intro seen
      by_cases h : recKey r ∈ seen
      · have hmem : recKey r ∈ seen.toFinset := List.mem_toFinset.mpr h
        simp only [dedupByKey, h, if_pos, List.map_cons, List.toFinset_cons,
          Finset.insert_sdiff_of_mem _ hmem]
        exact ih seen
      · have hmem : recKey r ∉ seen.toFinset := fun hc => h (List.mem_toFinset.mp hc)
        have step := ih (recKey r :: seen)
        simp only [dedupByKey, h, if_neg, not_false_iff, List.length_cons, List.map_cons,
          List.toFinset_cons, Finset.insert_sdiff_of_not_mem _ hmem] at *
        rw [step, Finset.sdiff_insert]
        set X := (t.map recKey).toFinset \ seen.toFinset with hX
        by_cases hx : recKey r ∈ X
        · rw [Finset.insert_eq_self.mpr hx]
          exact Finset.card_erase_add_one hx
        · rw [Finset.card_insert_of_not_mem hx, Finset.erase_eq_of_not_mem hx]

theorem keys_dedupByKey (l : List Record) :
    ∀ seen : List String,
      ((dedupByKey l seen).map recKey).toFinset
        = ((l.map recKey).toFinset) \ seen.toFinset := by
  induction l with
  | nil => intro seen; simp [dedupByKey]
  | cons r t ih =>
      intro seen
      by_cases h : recKey r ∈ seen
      · have hmem : recKey r ∈ seen.toFinset := List.mem_toFinset.mpr h
        simp only [dedupByKey, h, if_pos, List.map_cons, List.toFinset_cons,
          Finset.insert_sdiff_of_mem _ hmem]
        exact ih seen
      · have hmem : recKey r ∉ seen.toFinset := fun hc => h (List.mem_toFinset.mp hc)
        simp only [dedupByKey, h, if_neg, not_false_iff, List.map_cons, List.toFinset_cons,
          Finset.insert_sdiff_of_not_mem _ hmem, ih (recKey r :: seen)]
        rw [Finset.sdiff_insert]
        ext x
        by_cases hx : x = recKey r <;> simp [hx]

theorem find?_append_of_isSome {p : Record → Bool} (l₁ l₂ : List Record)
    (h : (l₁.find? p).isSome) : (l₁ ++ l₂).find? p = l₁.find? p := by
  induction l₁ with
  | nil => simp [List.find?] at h
  | cons a t ih =>
      by_cases hp : p a
      · simp [List.find?_cons, hp]
      · simp only [List.find?_cons, Bool.not_eq_true] at h ⊢
        simp only [hp] at h ⊢
        simp only [List.cons_append, List.find?_cons, hp]
        exact ih h

/-- Python `text.split()`: split on whitespace runs, no empty tokens
(auxiliary recursion carrying the reversed current token). -/
def pySplitAux : List Char → List Char → List String
  | [], acc => if acc = [] then [] else [String.mk acc.reverse]
  | c :: rest, acc =>
      if isPySpace c then
        if acc = [] then pySplitAux rest []
        else String.mk acc.reverse :: pySplitAux rest []
      else pySplitAux rest (c :: acc)

/-- Python `text.split()`. -/
def pySplit (s : String) : List String := pySplitAux s.toList []

/-- The Fox extractor's only per-candidate validation (lines 91, 105, 119,
133, 145): `if headline_text and len(headline_text) > 10`. -/
def foxAccepts (t : String) : Bool :=
  if t = "" then false else decide (10 < t.length)

/-- Within-pass dedup of extracted headline strings keyed on
`headline.lower().strip()`, keeping the first occurrence (lines 149-156). -/
def dedupHeadlines : List String → List String → List String
  | [], _ => []
  | h :: t, seen =>
      if canonKey h ∈ seen then dedupHeadlines t seen
      else h :: dedupHeadlines t (canonKey h :: seen)

/-- Fox success path: filter the candidate text nodes gathered by the five
selector rules, then drop duplicates keeping first. -/
def foxProcess (cands : List String) : List String :=
  dedupHeadlines (cands.filter foxAccepts) []

/-- Exclusion keyword list of the NBC Latest Stories extractor
(lines 211-216). -/
def excludeKeywordsLatest : List String :=
  ["promotion", "sponsored", "advertisement", "advert", "commercial",
   "getty images", "via ap", "via reuters", "via getty", "photo by",
   "photographer", "credit:", "image credit", "nbc news sitemap",
   "site map", "closed captioning", "load more"]

/-- `is_valid_headline` of the NBC Latest Stories extractor (lines 218-228);
`pyStrip (pyLower t)` is the function's `text_lower = text.lower().strip()`. -/
def isValidHeadlineLatest (t : String) : Bool :=
  if t = "" ∨ t.length < 15 ∨ 200 < t.length then false
  else if containsSub (pyStrip (pyLower t)) " " = false then false
  else if excludeKeywordsLatest.any (fun k => containsSub (pyStrip (pyLower t)) k) then false
  else true

/-- Exclusion keyword list of the NBC homepage extractor (lines 477-505). -/
def excludeKeywordsHome : List String :=
  ["promotion", "sponsored", "advertisement", "advert", "commercial",
   "getty images", "via ap", "via reuters", "via getty", "photo by",
   "photographer", "credit:", "image credit", "nbc news sitemap",
   "site map", "closed captioning", "culture and trends", "business and tech",
   "health and science", "most popular", "editors\x27 picks", "dallas-fort worth",
   "washington, d.c.", "nbc asian america", "special features", "next steps for vets",
   "nbc news site map", "live", "trump admin", "sherrone moore charges",
   "washington floods", "tina peters pardon", "house oversight committee",
   "andrew caballero-reynolds", "saul loeb", "joe raedle", "alex brandon",
   "win mcnamee", "luke hales", "anatolii stepanov", "al drago", "alberto cassani",
   "tobias schwartz", "mykal mceldowney", "usa today network", "via imagn",
   "tommy forbes", "bango studios", "justine goode", "anthony behar", "sipa usa",
   "stuart cahill", "the boston herald", "via ap, pool", "minh connors",
   "charles krupa", "kevin sabitus", "gareth cattermole", "tas rights management",
   "abdalhkem abu riash", "anadolu via getty", "vivian le", "smirnoff",
   "williams sonoma", "quiksilver", "acne studios", "amazon", "harry rabinowitz",
   "michael owens", "rick egan", "pool via ap", "courtesy of", "/ nbc",
   "nbc news", "nbc", "the injury analysts", "falcons vs buccaneers recap",
   "tristan jarry trade", "freddie kitchens fired", "t.j. watt injury",
   "artificial intelligence", "nascar antitrust settlement", "gas explosion",
   "live hand grenade", "obamacare premium", "republican-led house",
   "justice department", "the risk of ai", "a health care", "pastors and prey",
   "u.s. offers", "iran arrests", "king charles to", "germany summons",
   "federal reserve", "senators ask", "monthly tariff", "reddit challenges",
   "triple-negative breast", "fda proposes", "eurovision champion",
   "marvelous mrs. maisel", "talking shop", "i\x27ve tested", "beef tallow",
   "schmidt\x27s", "salt & stone", "native", "jelly roll says"]

/-- Photo-credit textual patterns of the NBC homepage extractor (line 524). -/
def creditPatterns : List String :=
  [" / ", " via ", "photo by", "credit:", "getty", "ap photo"]

/-- Common short words of the bare-name heuristic (line 529). -/
def commonShortWords : List String :=
  ["the", "a", "an", "in", "on", "at", "to", "for", "of", "and", "or"]

/-- `is_valid_headline` of the NBC homepage extractor (lines 507-532). -/
def isValidHeadlineHome (t : String) : Bool :=
  if t = "" ∨ t.length < 15 ∨ 200 < t.length then false
  else if containsSub (pyStrip (pyLower t)) " " = false then false
  else if excludeKeywordsHome.any (fun k => containsSub (pyStrip (pyLower t)) k) then false
  else if creditPatterns.any (fun p => containsSub (pyStrip (pyLower t)) p) then false
  else if (pySplit t).length ≤ 3 ∧
      commonShortWords.all (fun w => containsSub (pyStrip (pyLower t)) w = false) then false
  else true

/-- Observable outcome of one fetch attempt: an HTTP response carrying its
status code and the candidate text nodes its markup parses to, a
`requests.exceptions.RequestException`, or any other in-attempt exception. -/
inductive FetchOutcome where
  | response (status : Nat) (candidates : List String)
  | requestError
  | otherError
deriving DecidableEq

/-- An attempt that does not deliver an HTTP 200 response. -/
def isFailure : FetchOutcome → Bool
  | .response 200 _ => false
  | .response _ _ => true
  | .requestError => true
  | .otherError => true

/-- `scrape_headlines_foxnews` retry skeleton (lines 59-77, 170-187): walk the
attempts; on a 200 response parse and return; on any failure sleep `delay`
and retry if attempts remain, else return the (empty) accumulated list.
Returns the headline list and the list of sleeps performed; an uncaught
exception would be `.error`, which the code's handlers never let happen. -/
def scrapeFox (delay : Nat) : List FetchOutcome → Except String (List String × List Nat)
  | [] => .ok ([], [])
  | o :: rest =>
      match o with
      | .response s cs =>
          if s = 200 then .ok (foxProcess cs, [])
          else if rest = [] then .ok ([], [])
          else
            match scrapeFox delay rest with
            | .ok (r, ss) => .ok (r, delay :: ss)
            | .error e => .error e
      | _ =>
          if rest = [] then .ok ([], [])
          else
            match scrapeFox delay rest with
            | .ok (r, ss) => .ok (r, delay :: ss)
            | .error e => .error e

/-- `extract_headlines_from_html` (lines 230-265): each candidate text node is
read with `get_text(strip=True)`, validated, and appended unless its
lowercased text is already in the shared `seen` set. Returns the extracted
list and the updated `seen` set. -/
def latestExtract : List String → List String → List String × List String
  | seen, [] => ([], seen)
  | seen, c :: rest =>
      if isValidHeadlineLatest (pyStrip c) = true ∧ pyLower (pyStrip c) ∉ seen then
        let p := latestExtract (seen ++ [pyLower (pyStrip c)]) rest
        (pyStrip c :: p.1, p.2)
      else latestExtract seen rest

/-- Environment of one load-more iteration: whether the affordance is found,
whether it is displayed and enabled, and the candidate text nodes of the page
after the click. -/
structure ClickState where
  buttonFound : Bool
  clickable : Bool
  pageCands : List String
deriving DecidableEq

/-- The load-more loop (lines 316-382): bounded by the fuel
(`max_load_more_clicks`); breaks when the button is absent or not clickable;
after a click re-parses and appends `new_headlines[len(headlines):]` when
`len(new_headlines) - len(headlines) > 0`, else breaks. Returns the headline
list and the number of clicks performed. -/
def loadMoreLoop : Nat → List ClickState → List String → List String → List String × Nat
  | 0, _, _, hs => (hs, 0)
  | _ + 1, [], _, hs => (hs, 0)
  | fuel + 1, st :: rest, seen, hs =>
      if st.buttonFound = false then (hs, 0)
      else if st.clickable = true then
        let p := latestExtract seen st.pageCands
        if hs.length < p.1.length then
          let q := loadMoreLoop fuel rest p.2 (hs ++ p.1.drop hs.length)
          (q.1, q.2 + 1)
        else (hs, 1)
      else (hs, 0)

/-- The requests/BeautifulSoup fallback of the Latest Stories extractor
(lines 409-457): retries like the Fox fetcher and parses a single page. -/
def nbcFallback : List FetchOutcome → Except String (List String)
  | [] => .ok []
  | o :: rest =>
      match o with
      | .response s cs =>
          if s = 200 then .ok (latestExtract [] cs).1
          else if rest = [] then .ok [] else nbcFallback rest
      | _ => if rest = [] then .ok [] else nbcFallback rest

/-- `scrape_headlines_nbcnews_latest` (lines 190-457): with Selenium
available, parse the initial page then run the load-more loop; when its
module is missing, degrade to the single-page requests fallback. -/
def scrapeNbcLatest (seleniumAvailable : Bool) (initCands : List String)
    (clicks : List ClickState) (fallbackAttempts : List FetchOutcome)
    (maxClicks : Nat := 5) : Except String (List String) :=
  if seleniumAvailable then
    let p := latestExtract [] initCands
    .ok (loadMoreLoop maxClicks clicks p.2 p.1).1
  else nbcFallback fallbackAttempts

/-- `random.sample(l, n)` modelled by the positions the PRNG chose. -/
def sampleByIdx (l : List String) (idxs : List Nat) : List String :=
  idxs.filterMap l.get?

/-- A possible value of `random.sample(:, n)`'s position choice: `n` distinct
in-range positions (a uniform draw without replacement picks such a list). -/
def validSampleIdx (idxs : List Nat) (len n : Nat) : Prop :=
  idxs.length = n ∧ idxs.Nodup ∧ ∀ i ∈ idxs, i < len

/-- `collect_daily_headlines` balancing steps (lines 681-747): take
`n = min(len(fox), len(nbc))`; if zero return the empty frame; otherwise
sample `n` from any longer list, use a list of length `n` in full, and tag
rows with their source and the collection date (Fox rows first). -/
def collectDaily (foxHs nbcHs : List String) (foxIdx nbcIdx : List Nat)
    (date : String) : List Record :=
  let n := min foxHs.length nbcHs.length
  if n = 0 then []
  else
    let foxS := if n < foxHs.length then sampleByIdx foxHs foxIdx else foxHs
    let nbcS := if n < nbcHs.length then sampleByIdx nbcHs nbcIdx else nbcHs
    foxS.map (fun h => { headline := h, source := "FoxNews", collection_date := date })
      ++ nbcS.map (fun h => { headline := h, source := "NBC", collection_date := date })

/-- One row of a loaded CSV: column/value pairs. -/
abbrev FrameRow := List (String × String)

/-- Cell access by column name. -/
def lookupD (r : FrameRow) (c : String) : String := (r.lookup c).getD ""

/-- A tabular file as loaded from disk: its columns and its rows. -/
structure RawFrame where
  cols : List String
  rows : List FrameRow
deriving DecidableEq

/-- Lines 874-881 resp. 899-906: keep a loaded frame only if it has the
`headline` and `source` columns; fill a missing `collection_date` column with
the sentinel; project to the three pipeline columns. -/
def processFrame (f : RawFrame) (sentinel : String) : Option (List Record) :=
  if "headline" ∈ f.cols ∧ "source" ∈ f.cols then
    some (f.rows.map (fun row =>
      { headline := lookupD row "headline"
        source := lookupD row "source"
        collection_date :=
          if "collection_date" ∈ f.cols then lookupD row "collection_date"
          else sentinel }))
  else none

/-- `to_csv` of a three-column frame. -/
def frameOfRecords (l : List Record) : RawFrame :=
  { cols := ["headline", "source", "collection_date"]
    rows := l.map (fun r =>
      [("headline", r.headline), ("source", r.source),
       ("collection_date", r.collection_date)]) }

/-- The records the original dataset contributes to the merge
(empty when the file is absent or lacks required columns). -/
def origRecordsOf (oF : Option RawFrame) : List Record :=
  match oF with
  | none => []
  | some f => (processFrame f "initial").getD []

/-- The records the prior integrated dataset contributes to the merge. -/
def integRecordsOf (iF : Option RawFrame) : List Record :=
  match iF with
  | none => []
  | some f => (processFrame f "unknown").getD []

/-- `all_datasets` after steps 1 and 2 of `integrate_with_existing_dataset`:
the loaded original then the loaded integrated dataset, each skipped when
absent or malformed. -/
def loadedDatasets (oF iF : Option RawFrame) : List (List Record) :=
  (match oF with
   | none => []
   | some f => (processFrame f "initial").toList)
  ++ (match iF with
      | none => []
      | some f => (processFrame f "unknown").toList)

/-- One audit row of `scraping_report.csv` (lines 796-805). -/
structure ReportRow where
  scraping_date : String
  total_headlines_scraped : Nat
  fox_news_count : Nat
  nbc_news_count : Nat
  headlines_added : Nat
  duplicates_skipped : Nat
  dataset_size_before : Nat
  dataset_size_after : Nat
deriving DecidableEq

/-- `update_scraping_report` statistics (lines 768-804): with an existing
dataset, `headlines_added` is the size of the set difference of normalized
headline sets; on a first run every scraped headline counts as added. -/
def makeReportRow (today : String) (daily : List Record)
    (existingBefore : Option (List Record)) (after : List Record) : ReportRow :=
  let total := daily.length
  let fox := (daily.filter (fun r => r.source == "FoxNews")).length
  let nbc := (daily.filter (fun r => r.source == "NBC")).length
  match existingBefore with
  | some ex =>
      let added := (((daily.map recKey).toFinset) \ ((ex.map recKey).toFinset)).card
      { scraping_date := today, total_headlines_scraped := total
        fox_news_count := fox, nbc_news_count := nbc
        headlines_added := added, duplicates_skipped := total - added
        dataset_size_before := ex.length, dataset_size_after := after.length }
  | none =>
      { scraping_date := today, total_headlines_scraped := total
        fox_news_count := fox, nbc_news_count := nbc
        headlines_added := total, duplicates_skipped := 0
        dataset_size_before := 0, dataset_size_after := after.length }

/-- The persisted state the run touches: the original dataset file, the
integrated dataset file, and the report log. -/
structure Stores where
  original : Option RawFrame
  integrated : Option RawFrame
  report : List ReportRow
deriving DecidableEq

/-- The merge result: concatenate original, prior integrated, and batch
records, then apply the keep-first dedup pipeline (lines 934-946). -/
def mergedRecords (oF iF : Option RawFrame) (b : List Record) : List Record :=
  dedupPipeline ((loadedDatasets oF iF).flatten ++ b)

/-- `integrate_with_existing_dataset` (lines 829-990) as a transformer of the
persisted stores: an empty batch returns immediately without touching any
file (lines 855-857); otherwise the merged result replaces the integrated
store wholesale and one report row is appended. -/
def runIntegrate (today : String) (s : Stores) (b : List Record) : Stores :=
  if b = [] then s
  else
    let ds := loadedDatasets s.original s.integrated
    let existingBefore : Option (List Record) :=
      match ds with
      | [] => none
      | _ => some (dedupPipeline ds.flatten)
    let after := dedupPipeline (ds.flatten ++ b)
    { original := s.original
      integrated := some (frameOfRecords after)
      report := s.report ++ [makeReportRow today b existingBefore after] }

theorem keys_dedupPipeline (l : List Record) :
    ((dedupPipeline l).map recKey).toFinset = (l.map recKey).toFinset := by
  rw [dedupPipeline_eq, keys_dedupByKey]
  simp

theorem length_dedupPipeline (l : List Record) :
    (dedupPipeline l).length = ((l.map recKey).toFinset).card := by
  rw [dedupPipeline_eq, length_dedupByKey]
  simp

theorem dedupPipeline_append_length (l b : List Record) :
    (dedupPipeline (l ++ b)).length
      = (dedupPipeline l).length
        + (((b.map recKey).toFinset) \ ((l.map recKey).toFinset)).card := by
  rw [length_dedupPipeline, length_dedupPipeline]
  simp only [List.map_append, List.toFinset_append]
  rw [Finset.union_comm, ← Finset.card_sdiff_add_card]
  omega

theorem loadedDatasets_flatten (oF iF : Option RawFrame) :
    (loadedDatasets oF iF).flatten = origRecordsOf oF ++ integRecordsOf iF := by
  cases oF with
  | none =>
      cases iF with
      | none => rfl
      | some g =>
          cases hg : processFrame g "unknown" <;>
            simp [loadedDatasets, origRecordsOf, integRecordsOf, hg]
  | some f =>
      cases hf : processFrame f "initial" with
      | none =>
          cases iF with
          | none => simp [loadedDatasets, origRecordsOf, integRecordsOf, hf]
          | some g =>
              cases hg : processFrame g "unknown" <;>
                simp [loadedDatasets, origRecordsOf, integRecordsOf, hf, hg]
      | some lo =>
          cases iF with
          | none => simp [loadedDatasets, origRecordsOf, integRecordsOf, hf]
          | some g =>
              cases hg : processFrame g "unknown" <;>
                simp [loadedDatasets, origRecordsOf, integRecordsOf, hf, hg]

theorem sampleByIdx_length {l : List String} {idxs : List Nat}
    (h : ∀ i ∈ idxs, i < l.length) : (sampleByIdx l idxs).length = idxs.length := by
  induction idxs with
  | nil => rfl
  | cons i t ih =>
      have hi : i < l.length := h i (List.mem_cons_self i t)
      rw [sampleByIdx, List.filterMap_cons, List.get?_eq_get hi]
      simp only [List.length_cons]
      rw [← sampleByIdx]
      rw [ih (fun j hj => h j (List.mem_cons_of_mem _ hj))]

theorem sampleByIdx_mem {l : List String} {idxs : List Nat} {a : String}
    (h : a ∈ sampleByIdx l idxs) : a ∈ l := by
  simp only [sampleByIdx, List.mem_filterMap] at h
  obtain ⟨i, _, hg⟩ := h
  exact List.get?_mem hg

theorem filter_srcmap (l : List String) (src src' d : String) :
    ((l.map (fun h => ({ headline := h, source := src, collection_date := d } : Record))).filter
        (fun r => r.source == src'))
      = if src = src' then
          l.map (fun h => ({ headline := h, source := src, collection_date := d } : Record))
        else [] := by
  induction l with
  | nil => simp
  | cons a t ih =>
      by_cases hs : src = src' <;>
        simp [List.filter_cons, hs, ih]

theorem latestExtract_seen_eq (cs : List String) :
    ∀ seen : List String,
      (latestExtract seen cs).2 = seen ++ ((latestExtract seen cs).1.map pyLower) := by
  induction cs with
  | nil => intro seen; simp [latestExtract]
  | cons c rest ih =>
      intro seen
      by_cases h : isValidHeadlineLatest (pyStrip c) = true ∧ pyLower (pyStrip c) ∉ seen
      · simp only [latestExtract, if_pos h, List.map_cons]
        rw [ih (seen ++ [pyLower (pyStrip c)])]
        simp
      · simp only [latestExtract, if_neg h]
        exact ih seen

theorem latestExtract_fresh (cs : List String) :
    ∀ (seen : List String) (t : String),
      t ∈ (latestExtract seen cs).1 → pyLower t ∉ seen := by
  induction cs with
  | nil => intro seen t ht; simp [latestExtract] at ht
  | cons c rest ih =>
      intro seen t ht
      by_cases h : isValidHeadlineLatest (pyStrip c) = true ∧ pyLower (pyStrip c) ∉ seen
      · simp only [latestExtract, if_pos h, List.mem_cons] at ht
        rcases ht with rfl | ht
        · exact h.2
        · intro hmem
          exact ih (seen ++ [pyLower (pyStrip c)]) t ht (List.mem_append_left _ hmem)
      · simp only [latestExtract, if_neg h] at ht
        exact ih seen t ht

theorem latestExtract_nodup (cs : List String) :
    ∀ seen : List String, (((latestExtract seen cs).1.map pyLower)).Nodup := by
  induction cs with
  | nil => intro seen; simp [latestExtract]
  | cons c rest ih =>
      intro seen
      by_cases h : isValidHeadlineLatest (pyStrip c) = true ∧ pyLower (pyStrip c) ∉ seen
      · simp only [latestExtract, if_pos h, List.map_cons, List.nodup_cons]
        refine ⟨fun hmem => ?_, ih _⟩
        rw [List.mem_map] at hmem
        obtain ⟨t', ht', hk⟩ := hmem
        refine latestExtract_fresh rest (seen ++ [pyLower (pyStrip c)]) t' ht' ?_
        rw [hk]
        exact List.mem_append_right _ (List.mem_singleton_self _)
      · simp only [latestExtract, if_neg h]
        exact ih seen

theorem loadMoreLoop_clicks_le (fuel : Nat) :
    ∀ (clicks : List ClickState) (seen hs : List String),
      (loadMoreLoop fuel clicks seen hs).2 ≤ fuel := by
  induction fuel with
  | zero => intro clicks seen hs; simp [loadMoreLoop]
  | succ f ih =>
      intro clicks seen hs
      cases clicks with
      | nil => simp [loadMoreLoop]
      | cons st rest =>
          simp only [loadMoreLoop]
          by_cases h1 : st.buttonFound = false
          · simp [h1]
          · rw [if_neg h1]
            by_cases h2 : st.clickable = true
            · rw [if_pos h2]
              by_cases h3 : hs.length < (latestExtract seen st.pageCands).1.length
              · rw [if_pos h3]
                exact Nat.succ_le_succ (ih _ _ _)
              · rw [if_neg h3]
                simp
            · rw [if_neg h2]
              simp

theorem loadMoreLoop_nodup (fuel : Nat) :
    ∀ (clicks : List ClickState) (seen hs : List String),
      (∀ t ∈ hs, pyLower t ∈ seen) → ((hs.map pyLower).Nodup) →
      (((loadMoreLoop fuel clicks seen hs).1.map pyLower)).Nodup := by
  induction fuel with
  | zero => intro clicks seen hs _ h2; simpa [loadMoreLoop] using h2
  | succ f ih =>
      intro clicks seen hs hsub hnd
      cases clicks with
      | nil => simpa [loadMoreLoop] using hnd
      | cons st rest =>
          simp only [loadMoreLoop]
          by_cases h1 : st.buttonFound = false
          · simpa [h1] using hnd
          · rw [if_neg h1]
            by_cases h2 : st.clickable = true
            · rw [if_pos h2]
              by_cases h3 : hs.length < (latestExtract seen st.pageCands).1.length
              · rw [if_pos h3]
                simp only []
                refine ih rest (latestExtract seen st.pageCands).2
                  (hs ++ (latestExtract seen st.pageCands).1.drop hs.length) ?_ ?_
                · intro t ht
                  rw [latestExtract_seen_eq]
                  rcases List.mem_append.mp ht with h | h
                  · exact List.mem_append_left _ (hsub t h)
                  · refine List.mem_append_right _ ?_
                    exact List.mem_map_of_mem _ (List.mem_of_mem_drop h)
                · rw [List.map_append]
                  refine List.Nodup.append hnd ?_ ?_
                  · rw [List.map_drop]
                    exact (latestExtract_nodup st.pageCands seen).sublist
                      (List.drop_sublist _ _)
                  · intro k hk hk2
                    rw [List.mem_map] at hk hk2
                    obtain ⟨t1, ht1, hk1⟩ := hk
                    obtain ⟨t2, ht2, hk2'⟩ := hk2
                    have hf := latestExtract_fresh st.pageCands seen t2
                      (List.mem_of_mem_drop ht2)
                    rw [hk2', ← hk1] at hf
                    exact hf (hsub t1 ht1)
              · rw [if_neg h3]
                simpa using hnd
            · rw [if_neg h2]
              simpa using hnd

/-- C4: re-running the merge with the same original and prior-integrated
inputs and an empty batch leaves every store untouched — the function
returns at once (lines 855-857) without writing, so the integrated store
still holds exactly the prior-integrated records in their prior order. -/
theorem claim4_empty_batch_is_noop :
    ∀ (today : String) (s : Stores),
      runIntegrate today s [] = s ∧
      (runIntegrate today s []).integrated = s.integrated := by
  intro today s
  constructor <;> simp [runIntegrate]

/-- C9: the merge never writes the original dataset: for every run (empty or
non-empty batch) the original store component of the state is unchanged;
only the integrated store and the report are assigned by `runIntegrate`. -/
theorem claim9_original_never_written :
    ∀ (today : String) (s : Stores) (b : List Record),
      (runIntegrate today s b).original = s.original := by
  intro today s b
  by_cases hb : b = [] <;> simp [runIntegrate, hb]

/-- C7 (amended): a run with a non-empty batch appends exactly one ReportRow
and a run with an empty batch appends none; in both cases the rows appended
by earlier runs remain unchanged as the initial segment of the log. -/
theorem claim7_report_append_only :
    ∀ (today : String) (s : Stores) (b : List Record),
      (runIntegrate today s b).report.length
          = s.report.length + (if b = [] then 0 else 1) ∧
      (runIntegrate today s b).report.take s.report.length = s.report := by
  intro today s b
  by_cases hb : b = []
  · simp [runIntegrate, hb]
  · refine ⟨?_, ?_⟩
    · simp [runIntegrate, hb]
    · simp only [runIntegrate, if_neg hb]
      exact List.take_left _ _

/-- C7 counterexample: a run whose collected batch is empty (here: the Fox
list is empty, so the balanced sampler returns an empty batch) appends no
report row at all, refuting "for every run, exactly one ReportRow is created
and appended to the report log". -/
theorem claim7_counterexample :
    (runIntegrate "2025-10-12" ⟨none, none, []⟩
        (collectDaily [] ["a b c d e f"] [] [] "2025-10-12")).report = [] := by
  decide

/-- C6: when every one of the `max_retries` attempts fails (a non-200 status,
a `RequestException`, or any other in-attempt error), the Fox scraper sleeps
the fixed base delay between consecutive attempts (`n - 1` sleeps of `delay`,
not exponential) and returns the explicit empty list as an ordinary value —
never an uncaught exception. -/
theorem scrapeFox_cons_fail (delay : Nat) (o : FetchOutcome) (rest : List FetchOutcome)
    (ho : isFailure o = true) (hrest : rest ≠ []) :
    scrapeFox delay (o :: rest)
      = match scrapeFox delay rest with
        | Except.ok (r, ss) => Except.ok (r, delay :: ss)
        | Except.error e => Except.error e := by
  cases o with
  | response s cs =>
      have hs : ¬ s = 200 := by
        intro h
        subst h
        simp [isFailure] at ho
      simp only [scrapeFox]
      rw [if_neg hs, if_neg hrest]
  | requestError =>
      simp only [scrapeFox]
      rw [if_neg hrest]
  | otherError =>
      simp only [scrapeFox]
      rw [if_neg hrest]

theorem claim6_exhausted_retries_return_empty :
    ∀ (delay : Nat) (attempts : List FetchOutcome),
      attempts ≠ [] → (∀ o ∈ attempts, isFailure o = true) →
      scrapeFox delay attempts
        = Except.ok ([], List.replicate (attempts.length - 1) delay) := by
  intro delay attempts
  induction attempts with
  | nil => intro h _; exact absurd rfl h
  | cons o rest ih =>
      intro _ hall
      have ho := hall o (List.mem_cons_self _ _)
      by_cases hrest : rest = []
      · subst hrest
        cases o with
        | response s cs =>
            have hs : ¬ s = 200 := by
              intro h
              subst h
              simp [isFailure] at ho
            simp [scrapeFox, hs]
        | requestError => simp [scrapeFox]
        | otherError => simp [scrapeFox]
      · have ih' := ih hrest (fun x hx => hall x (List.mem_cons_of_mem _ hx))
        rw [scrapeFox_cons_fail delay o rest ho hrest, ih']
        have hlen : (o :: rest).length - 1 = (rest.length - 1) + 1 := by
          cases rest with
          | nil => exact absurd rfl hrest
          | cons x xs => simp
        rw [hlen, List.replicate_succ]

/-- C6 witness: three failing attempts (connection error, HTTP 404, an
in-attempt exception) with delay 1 yield the empty list and two sleeps. -/
theorem claim6_witness :
    scrapeFox 1 [FetchOutcome.requestError, FetchOutcome.response 404 [],
        FetchOutcome.otherError]
      = Except.ok ([], [1, 1]) :=
  claim6_exhausted_retries_return_empty 1
    [FetchOutcome.requestError, FetchOutcome.response 404 [], FetchOutcome.otherError]
    (by decide) (by decide)

/-- C5 counterexample: the Fox extractor's only validation is
`len(headline_text) > 10`, so it accepts the 20-character single-token
string "abcdefghijklmnopqrst", refuting the claim that for every source
extractor a single-token 20-character string is rejected (the Fox check
also imposes no upper length bound). -/
theorem claim5_counterexample : foxAccepts "abcdefghijklmnopqrst" = true := by
  decide

/-- C5 (amended): the NBC validity predicates (Latest Stories and homepage)
reject strings with length outside [15, 200] and strings whose lowercased,
stripped text has no internal space; a 9-character string is rejected by all
three extractors (the Fox check needs length > 10); a 15-character string
containing a space is accepted by the Latest Stories predicate absent an
exclusion-keyword match; a single-token 20-character string is rejected by
both NBC predicates — but the Fox extractor, whose only check is
length > 10, accepts it. -/
theorem claim5_validity_predicate_amended :
    (∀ t : String, t.length < 15 ∨ 200 < t.length →
        isValidHeadlineLatest t = false ∧ isValidHeadlineHome t = false) ∧
    (∀ t : String, containsSub (pyStrip (pyLower t)) " " = false →
        isValidHeadlineLatest t = false ∧ isValidHeadlineHome t = false) ∧
    (∀ t : String, t.length = 9 →
        foxAccepts t = false ∧ isValidHeadlineLatest t = false ∧
          isValidHeadlineHome t = false) ∧
    isValidHeadlineLatest "Abcdefg Hijklmn" = true ∧
    (∀ t : String, t.length = 20 → containsSub (pyStrip (pyLower t)) " " = false →
        isValidHeadlineLatest t = false ∧ isValidHeadlineHome t = false) ∧
    foxAccepts "abcdefghijklmnopqrst" = true := by
  have hlen : ∀ t : String, t.length < 15 ∨ 200 < t.length →
      isValidHeadlineLatest t = false ∧ isValidHeadlineHome t = false := by
    intro t ht
    constructor
    · unfold isValidHeadlineLatest
      rw [if_pos (by tauto)]
    · unfold isValidHeadlineHome
      rw [if_pos (by tauto)]
  have hspace : ∀ t : String, containsSub (pyStrip (pyLower t)) " " = false →
      isValidHeadlineLatest t = false ∧ isValidHeadlineHome t = false := by
    intro t ht
    constructor
    · unfold isValidHeadlineLatest
      by_cases h1 : t = "" ∨ t.length < 15 ∨ 200 < t.length
      · rw [if_pos h1]
      · rw [if_neg h1, if_pos ht]
    · unfold isValidHeadlineHome
      by_cases h1 : t = "" ∨ t.length < 15 ∨ 200 < t.length
      · rw [if_pos h1]
      · rw [if_neg h1, if_pos ht]
  refine ⟨hlen, hspace, ?_, by decide, ?_, by decide⟩
  · intro t ht
    have h9 := hlen t (Or.inl (by omega))
    refine ⟨?_, h9.1, h9.2⟩
    unfold foxAccepts
    by_cases he : t = ""
    · rw [if_pos he]
    · rw [if_neg he]
      rw [ht]
      decide
  · intro t _ hsp
    exact hspace t hsp

/-- C5 witness: concrete boundary checks — "ab" (too short) rejected by both
NBC predicates; "Abcdefghijklmnopq" (17 characters, no space) rejected by
both; "abcd efgh" (9 characters) rejected by all three extractors;
"abcdefghijklmnopqrst" (single-token, 20 characters) rejected by both NBC
predicates. -/
theorem claim5_witness :
    (isValidHeadlineLatest "ab" = false ∧ isValidHeadlineHome "ab" = false) ∧
    (isValidHeadlineLatest "Abcdefghijklmnopq" = false ∧
      isValidHeadlineHome "Abcdefghijklmnopq" = false) ∧
    (foxAccepts "abcd efgh" = false ∧ isValidHeadlineLatest "abcd efgh" = false ∧
      isValidHeadlineHome "abcd efgh" = false) ∧
    (isValidHeadlineLatest "abcdefghijklmnopqrst" = false ∧
      isValidHeadlineHome "abcdefghijklmnopqrst" = false) :=
  ⟨claim5_validity_predicate_amended.1 "ab" (Or.inl (by decide)),
   claim5_validity_predicate_amended.2.1 "Abcdefghijklmnopq" (by decide),
   claim5_validity_predicate_amended.2.2.1 "abcd efgh" (by decide),
   claim5_validity_predicate_amended.2.2.2.2.1 "abcdefghijklmnopqrst" (by decide)
     (by decide)⟩

/-- C10: every dataset written to the integrated store carries exactly the
columns headline, source, collection_date (extra columns of loaded inputs
are dropped by the projection); a loaded original input lacking the
collection_date column has it filled with the sentinel "initial", a loaded
prior-integrated input with "unknown", before merging. -/
theorem claim10_integrated_schema :
    (∀ (today : String) (oF iF : Option RawFrame) (rep : List ReportRow)
        (b : List Record), b ≠ [] →
        Option.map RawFrame.cols (runIntegrate today ⟨oF, iF, rep⟩ b).integrated
          = some ["headline", "source", "collection_date"]) ∧
    (∀ f : RawFrame, "headline" ∈ f.cols → "source" ∈ f.cols →
        "collection_date" ∉ f.cols →
        ∀ r ∈ origRecordsOf (some f), r.collection_date = "initial") ∧
    (∀ f : RawFrame, "headline" ∈ f.cols → "source" ∈ f.cols →
        "collection_date" ∉ f.cols →
        ∀ r ∈ integRecordsOf (some f), r.collection_date = "unknown") := by
  refine ⟨?_, ?_, ?_⟩
  · intro today oF iF rep b hb
    simp [runIntegrate, hb, frameOfRecords]
  · intro f h1 h2 h3 r hr
    simp only [origRecordsOf, processFrame, if_pos (And.intro h1 h2), Option.getD_some,
      List.mem_map] at hr
    obtain ⟨row, _, hrow⟩ := hr
    rw [← hrow]
    simp [h3]
  · intro f h1 h2 h3 r hr
    simp only [integRecordsOf, processFrame, if_pos (And.intro h1 h2), Option.getD_some,
      List.mem_map] at hr
    obtain ⟨row, _, hrow⟩ := hr
    rw [← hrow]
    simp [h3]

/-- A loaded frame with an extra column and no collection_date column. -/
def w10frame : RawFrame :=
  { cols := ["headline", "source", "extra"]
    rows := [[("headline", "H one two"), ("source", "S"), ("extra", "x")]] }

/-- C10 witness: running the merge on inputs loaded with an extra column and
without collection_date writes a three-column frame, and the processed
inputs carry the sentinels. -/
theorem claim10_witness :
    Option.map RawFrame.cols
        (runIntegrate "2025-10-12" ⟨some w10frame, some w10frame, []⟩
          [⟨"New b c", "FoxNews", "2025-10-12"⟩]).integrated
      = some ["headline", "source", "collection_date"] ∧
    (Record.mk "H one two" "S" "initial").collection_date = "initial" ∧
    (Record.mk "H one two" "S" "unknown").collection_date = "unknown" :=
  ⟨claim10_integrated_schema.1 "2025-10-12" (some w10frame) (some w10frame) []
      [⟨"New b c", "FoxNews", "2025-10-12"⟩] (by decide),
   claim10_integrated_schema.2.1 w10frame (by decide) (by decide) (by decide)
      (Record.mk "H one two" "S" "initial") (by decide),
   claim10_integrated_schema.2.2 w10frame (by decide) (by decide) (by decide)
      (Record.mk "H one two" "S" "unknown") (by decide)⟩

/-- C1: the merged result is exactly the concatenation original ++
prior-integrated ++ batch deduplicated by CanonicalKey keeping the first
occurrence; hence no two merged records share a CanonicalKey, and for any
key occurring in the original dataset the merged record with that key is the
original's record (source field included); with a non-empty batch that
result is what replaces the integrated store. -/
theorem claim1_merge_is_ordered_union :
    ∀ (oF iF : Option RawFrame) (b : List Record),
      mergedRecords oF iF b
          = dedupByKey (origRecordsOf oF ++ integRecordsOf iF ++ b) [] ∧
      ((mergedRecords oF iF b).map recKey).Nodup ∧
      (∀ r ∈ origRecordsOf oF,
          (mergedRecords oF iF b).find? (fun x => recKey x == recKey r)
            = (origRecordsOf oF).find? (fun x => recKey x == recKey r)) ∧
      (∀ (today : String) (rep : List ReportRow), b ≠ [] →
          (runIntegrate today ⟨oF, iF, rep⟩ b).integrated
            = some (frameOfRecords (mergedRecords oF iF b))) := by
  intro oF iF b
  have heq : mergedRecords oF iF b
      = dedupByKey (origRecordsOf oF ++ integRecordsOf iF ++ b) [] := by
    rw [mergedRecords, dedupPipeline_eq, loadedDatasets_flatten, List.append_assoc]
  refine ⟨heq, ?_, ?_, ?_⟩
  · rw [heq]
    exact (dedupByKey_keys_spec _ []).1
  · intro r hr
    rw [heq, find?_dedupByKey _ [] (recKey r) (List.not_mem_nil _)]
    have hsome : ((origRecordsOf oF).find? (fun x => recKey x == recKey r)).isSome := by
      rw [List.find?_isSome]
      exact ⟨r, hr, by simp⟩
    rw [List.append_assoc] at *
    exact find?_append_of_isSome _ _ hsome
  · intro today rep hb
    simp only [runIntegrate, if_neg hb, mergedRecords, loadedDatasets]

/-- The original frame of the C1 witness. -/
def w1orig : RawFrame := frameOfRecords [⟨"X headline text", "A", "d0"⟩]

/-- The batch of the C1 witness: same CanonicalKey as the original's record,
different case and source. -/
def w1batch : List Record := [⟨"x HEADLINE text", "B", "d1"⟩]

/-- C1 witness: with an original record of key "x headline text" and a batch
record of the same key from source "B", the merged result keeps the
original's record, has duplicate-free keys, and is what the run writes. -/
theorem claim1_witness :
    ((mergedRecords (some w1orig) none w1batch).map recKey).Nodup ∧
    (mergedRecords (some w1orig) none w1batch).find?
        (fun x => recKey x == recKey ⟨"X headline text", "A", "d0"⟩)
      = (origRecordsOf (some w1orig)).find?
        (fun x => recKey x == recKey ⟨"X headline text", "A", "d0"⟩) ∧
    (runIntegrate "2025-10-12" ⟨some w1orig, none, []⟩ w1batch).integrated
      = some (frameOfRecords (mergedRecords (some w1orig) none w1batch)) :=
  ⟨(claim1_merge_is_ordered_union (some w1orig) none w1batch).2.1,
   (claim1_merge_is_ordered_union (some w1orig) none w1batch).2.2.1
      ⟨"X headline text", "A", "d0"⟩ (by decide),
   (claim1_merge_is_ordered_union (some w1orig) none w1batch).2.2.2
      "2025-10-12" [] (by decide)⟩

theorem runIntegrate_nonempty_ds (today : String) (oF iF : Option RawFrame)
    (rep : List ReportRow) (b : List Record) (hb : b ≠ [])
    (hds : loadedDatasets oF iF ≠ []) :
    runIntegrate today ⟨oF, iF, rep⟩ b
      = { original := oF
          integrated := some (frameOfRecords
            (dedupPipeline ((loadedDatasets oF iF).flatten ++ b)))
          report := rep ++ [makeReportRow today b
            (some (dedupPipeline (loadedDatasets oF iF).flatten))
            (dedupPipeline ((loadedDatasets oF iF).flatten ++ b))] } := by
  simp only [runIntegrate, if_neg hb]

theorem runIntegrate_first_run (today : String) (oF iF : Option RawFrame)
    (rep : List ReportRow) (b : List Record) (hb : b ≠ [])
    (hds : loadedDatasets oF iF = []) :
    runIntegrate today ⟨oF, iF, rep⟩ b
      = { original := oF
          integrated := some (frameOfRecords (dedupPipeline b))
          report := rep ++ [makeReportRow today b none (dedupPipeline b)] } := by
  simp only [runIntegrate, if_neg hb]
  rw [hds]
  rfl

/-- C2 (amended): whenever the run has a pre-merge existing dataset (the
original or prior-integrated input loaded), the appended report row
satisfies the claim exactly: headlines_added is the number of CanonicalKeys
of the batch absent from the existing dataset's key set, duplicates_skipped
is len(batch) minus headlines_added, and dataset_size_after equals
dataset_size_before plus headlines_added. On a first run (no existing
dataset) the code instead sets headlines_added to len(batch), which agrees
with the claimed distinct-key count — and restores the arithmetic
invariant — only when the batch's CanonicalKeys are pairwise distinct. -/
theorem claim2_report_arithmetic_amended :
    (∀ (today : String) (oF iF : Option RawFrame) (rep : List ReportRow)
        (b : List Record), b ≠ [] → loadedDatasets oF iF ≠ [] →
        ∃ row : ReportRow,
          (runIntegrate today ⟨oF, iF, rep⟩ b).report = rep ++ [row] ∧
          row.headlines_added
            = (((b.map recKey).toFinset)
                \ (((dedupPipeline (loadedDatasets oF iF).flatten).map
                    recKey).toFinset)).card ∧
          row.duplicates_skipped = b.length - row.headlines_added ∧
          row.dataset_size_before
            = (dedupPipeline (loadedDatasets oF iF).flatten).length ∧
          row.dataset_size_after = row.dataset_size_before + row.headlines_added) ∧
    (∀ (today : String) (oF iF : Option RawFrame) (rep : List ReportRow)
        (b : List Record), b ≠ [] → loadedDatasets oF iF = [] →
        ∃ row : ReportRow,
          (runIntegrate today ⟨oF, iF, rep⟩ b).report = rep ++ [row] ∧
          row.headlines_added = b.length ∧
          row.duplicates_skipped = 0 ∧
          row.dataset_size_before = 0 ∧
          ((b.map recKey).Nodup →
            row.headlines_added = ((b.map recKey).toFinset).card ∧
            row.dataset_size_after
              = row.dataset_size_before + row.headlines_added)) := by
  constructor
  · intro today oF iF rep b hb hds
    rw [runIntegrate_nonempty_ds today oF iF rep b hb hds]
    refine ⟨_, rfl, rfl, rfl, rfl, ?_⟩
    show (dedupPipeline ((loadedDatasets oF iF).flatten ++ b)).length
        = (dedupPipeline (loadedDatasets oF iF).flatten).length
          + (((b.map recKey).toFinset)
              \ (((dedupPipeline (loadedDatasets oF iF).flatten).map
                  recKey).toFinset)).card
    rw [keys_dedupPipeline, dedupPipeline_append_length]
  · intro today oF iF rep b hb hds
    rw [runIntegrate_first_run today oF iF rep b hb hds]
    refine ⟨_, rfl, rfl, rfl, rfl, ?_⟩
    intro hnd
    constructor
    · show b.length = ((b.map recKey).toFinset).card
      rw [List.toFinset_card_of_nodup hnd, List.length_map]
    · show (dedupPipeline b).length = 0 + b.length
      rw [length_dedupPipeline, List.toFinset_card_of_nodup hnd, List.length_map,
        Nat.zero_add]

/-- The existing dataset of the C2 witness. -/
def w2orig : RawFrame := frameOfRecords [⟨"Old one two", "FoxNews", "d0"⟩]

/-- The batch of the C2 witness: one duplicate of the existing key, one
fresh key. -/
def w2batch : List Record :=
  [⟨"OLD one two", "NBC", "d1"⟩, ⟨"Fresh x y", "NBC", "d1"⟩]

/-- C2 witness: the amended theorem applied to a run with an existing
dataset (one duplicate, one fresh headline in the batch) and to a first run
with a distinct-key batch. -/
theorem claim2_witness :
    (∃ row : ReportRow,
      (runIntegrate "2025-10-12" ⟨some w2orig, none, []⟩ w2batch).report
          = [] ++ [row] ∧
      row.headlines_added
        = (((w2batch.map recKey).toFinset)
            \ (((dedupPipeline (loadedDatasets (some w2orig) none).flatten).map
                recKey).toFinset)).card ∧
      row.duplicates_skipped = w2batch.length - row.headlines_added ∧
      row.dataset_size_before
        = (dedupPipeline (loadedDatasets (some w2orig) none).flatten).length ∧
      row.dataset_size_after = row.dataset_size_before + row.headlines_added) ∧
    (∃ row : ReportRow,
      (runIntegrate "2025-10-12" ⟨none, none, []⟩
          [⟨"Solo a b", "FoxNews", "d1"⟩]).report = [] ++ [row] ∧
      row.headlines_added = [(⟨"Solo a b", "FoxNews", "d1"⟩ : Record)].length ∧
      row.duplicates_skipped = 0 ∧
      row.dataset_size_before = 0 ∧
      (((([(⟨"Solo a b", "FoxNews", "d1"⟩ : Record)]).map recKey).Nodup) →
        row.headlines_added
          = (((([(⟨"Solo a b", "FoxNews", "d1"⟩ : Record)]).map recKey)).toFinset).card ∧
        row.dataset_size_after
          = row.dataset_size_before + row.headlines_added)) :=
  ⟨claim2_report_arithmetic_amended.1 "2025-10-12" (some w2orig) none [] w2batch
      (by decide) (by decide),
   claim2_report_arithmetic_amended.2 "2025-10-12" none none []
      [⟨"Solo a b", "FoxNews", "d1"⟩] (by decide) (by decide)⟩

/-- The batch of the C2 counterexample: two records sharing one
CanonicalKey. -/
def c2batch : List Record :=
  [⟨"A b c d", "FoxNews", "2025-10-12"⟩, ⟨"a b c d", "NBC", "2025-10-12"⟩]

/-- C2 counterexample: on a first run (no original file, no integrated file)
with a batch of two records sharing one CanonicalKey, the produced report
row has headlines_added = 2 although the batch holds only 1 CanonicalKey
absent from the (empty) existing key set, and dataset_size_after = 1 differs
from dataset_size_before + headlines_added = 0 + 2 — refuting both claimed
equalities for this run. -/
theorem claim2_counterexample :
    ((runIntegrate "2025-10-12" ⟨none, none, []⟩ c2batch).report.map
        (fun r => (r.headlines_added, r.dataset_size_before, r.dataset_size_after)))
      = [(2, 0, 1)] ∧
    ((c2batch.map recKey).toFinset).card = 1 := by
  constructor <;> decide

/-- C3: with `n = min(len(fox), len(nbc))` — if n = 0 the batch is empty
regardless of the larger list; if n > 0 and the position lists chosen by
`random.sample` are valid draws without replacement of size n, the batch
holds exactly n records from each source, every record's headline comes from
its source's input list (the sampled records are a subset), and a list of
length at most n is used in full. -/
theorem claim3_balanced_sampler :
    (∀ (fox nbc : List String) (fi ni : List Nat) (d : String),
        min fox.length nbc.length = 0 → collectDaily fox nbc fi ni d = []) ∧
    (∀ (fox nbc : List String) (fi ni : List Nat) (d : String),
        0 < min fox.length nbc.length →
        validSampleIdx fi fox.length (min fox.length nbc.length) →
        validSampleIdx ni nbc.length (min fox.length nbc.length) →
        ((collectDaily fox nbc fi ni d).filter
            (fun r => r.source == "FoxNews")).length = min fox.length nbc.length ∧
        ((collectDaily fox nbc fi ni d).filter
            (fun r => r.source == "NBC")).length = min fox.length nbc.length ∧
        (∀ r ∈ collectDaily fox nbc fi ni d,
            (r.source = "FoxNews" → r.headline ∈ fox) ∧
            (r.source = "NBC" → r.headline ∈ nbc)) ∧
        (fox.length ≤ min fox.length nbc.length →
            ((collectDaily fox nbc fi ni d).filter
              (fun r => r.source == "FoxNews")).map (fun r => r.headline) = fox) ∧
        (nbc.length ≤ min fox.length nbc.length →
            ((collectDaily fox nbc fi ni d).filter
              (fun r => r.source == "NBC")).map (fun r => r.headline) = nbc)) := by
  constructor
  · intro fox nbc fi ni d h0
    simp [collectDaily, h0]
  · intro fox nbc fi ni d hn hfi hni
    have hne : ¬ min fox.length nbc.length = 0 := by omega
    set n := min fox.length nbc.length with hndef
    set foxS := if n < fox.length then sampleByIdx fox fi else fox with hfoxS
    set nbcS := if n < nbc.length then sampleByIdx nbc ni else nbc with hnbcS
    have hcol : collectDaily fox nbc fi ni d
        = foxS.map (fun h => { headline := h, source := "FoxNews", collection_date := d })
          ++ nbcS.map (fun h => { headline := h, source := "NBC", collection_date := d }) := by
      rw [collectDaily]
      simp only [← hndef, if_neg hne, ← hfoxS, ← hnbcS]
    have hfoxlen : foxS.length = n := by
      rw [hfoxS]
      by_cases hlt : n < fox.length
      · rw [if_pos hlt, sampleByIdx_length hfi.2.2, hfi.1]
      · rw [if_neg hlt]
        omega
    have hnbclen : nbcS.length = n := by
      rw [hnbcS]
      by_cases hlt : n < nbc.length
      · rw [if_pos hlt, sampleByIdx_length hni.2.2, hni.1]
      · rw [if_neg hlt]
        omega
    have hfoxmem : ∀ h ∈ foxS, h ∈ fox := by
      rw [hfoxS]
      by_cases hlt : n < fox.length
      · rw [if_pos hlt]
        exact fun h hm => sampleByIdx_mem hm
      · rw [if_neg hlt]
        exact fun h hm => hm
    have hnbcmem : ∀ h ∈ nbcS, h ∈ nbc := by
      rw [hnbcS]
      by_cases hlt : n < nbc.length
      · rw [if_pos hlt]
        exact fun h hm => sampleByIdx_mem hm
      · rw [if_neg hlt]
        exact fun h hm => hm
    have hfilfox : (collectDaily fox nbc fi ni d).filter (fun r => r.source == "FoxNews")
        = foxS.map (fun h => { headline := h, source := "FoxNews", collection_date := d }) := by
      rw [hcol, List.filter_append, filter_srcmap, filter_srcmap]
      simp
    have hfilnbc : (collectDaily fox nbc fi ni d).filter (fun r => r.source == "NBC")
        = nbcS.map (fun h => { headline := h, source := "NBC", collection_date := d }) := by
      rw [hcol, List.filter_append, filter_srcmap, filter_srcmap]
      simp
    refine ⟨?_, ?_, ?_, ?_, ?_⟩
    · rw [hfilfox, List.length_map, hfoxlen]
    · rw [hfilnbc, List.length_map, hnbclen]
    · intro r hr
      rw [hcol, List.mem_append] at hr
      rcases hr with hr | hr <;> rw [List.mem_map] at hr <;> obtain ⟨h, hm, rfl⟩ := hr
      · exact ⟨fun _ => hfoxmem h hm, fun hc => by simp at hc⟩
      · exact ⟨fun hc => by simp at hc, fun _ => hnbcmem h hm⟩
    · intro hle
      have hfull : foxS = fox := by
        rw [hfoxS, if_neg (by omega)]
      rw [hfilfox, hfull, List.map_map]
      exact List.map_id fox
    · intro hle
      have hfull : nbcS = nbc := by
        rw [hnbcS, if_neg (by omega)]
      rw [hfilnbc, hfull, List.map_map]
      exact List.map_id nbc

/-- The ten-element Fox list of the C3 witness. -/
def w3fox : List String :=
  ["f one a", "f two a", "f three a", "f four a", "f five a",
   "f six a", "f seven a", "f eight a", "f nine a", "f ten a"]

/-- The three-element NBC list of the C3 witness. -/
def w3nbc : List String := ["n one a", "n two a", "n three a"]

/-- C3 witness: with a 10-element Fox list, a 3-element NBC list and the
draw [0, 4, 8] from the Fox list (and a valid but unused draw for NBC), the batch has exactly 3 records per
source, every record's headline comes from its source's list, and the
3-element NBC list is used in full. -/
theorem claim3_witness :
    ((collectDaily w3fox w3nbc [0, 4, 8] [0, 1, 2] "2025-10-12").filter
        (fun r => r.source == "FoxNews")).length = min w3fox.length w3nbc.length ∧
    ((collectDaily w3fox w3nbc [0, 4, 8] [0, 1, 2] "2025-10-12").filter
        (fun r => r.source == "NBC")).length = min w3fox.length w3nbc.length ∧
    (∀ r ∈ collectDaily w3fox w3nbc [0, 4, 8] [0, 1, 2] "2025-10-12",
        (r.source = "FoxNews" → r.headline ∈ w3fox) ∧
        (r.source = "NBC" → r.headline ∈ w3nbc)) ∧
    ((collectDaily w3fox w3nbc [0, 4, 8] [0, 1, 2] "2025-10-12").filter
        (fun r => r.source == "NBC")).map (fun r => r.headline) = w3nbc ∧
    collectDaily w3nbc [] [] [] "2025-10-12" = [] := by
  have h := claim3_balanced_sampler.2 w3fox w3nbc [0, 4, 8] [0, 1, 2] "2025-10-12"
    (by decide) ⟨by decide, by decide, by decide⟩ ⟨by decide, by decide, by decide⟩
  exact ⟨h.1, h.2.1, h.2.2.1, h.2.2.2.2 (by decide),
    claim3_balanced_sampler.1 w3nbc [] [] [] "2025-10-12" (by decide)⟩

theorem nbcFallback_ok : ∀ atts : List FetchOutcome, ∃ l, nbcFallback atts = Except.ok l := by
  intro atts
  induction atts with
  | nil => exact ⟨[], rfl⟩
  | cons o rest ih =>
      cases o with
      | response s cs =>
          by_cases hs : s = 200
          · exact ⟨(latestExtract [] cs).1, by simp only [nbcFallback]; rw [if_pos hs]⟩
          · by_cases hr : rest = []
            · exact ⟨[], by simp only [nbcFallback]; rw [if_neg hs, if_pos hr]⟩
            · obtain ⟨l, hl⟩ := ih
              exact ⟨l, by simp only [nbcFallback]; rw [if_neg hs, if_neg hr]; exact hl⟩
      | requestError =>
          by_cases hr : rest = []
          · exact ⟨[], by simp only [nbcFallback]; rw [if_pos hr]⟩
          · obtain ⟨l, hl⟩ := ih
            exact ⟨l, by simp only [nbcFallback]; rw [if_neg hr]; exact hl⟩
      | otherError =>
          by_cases hr : rest = []
          · exact ⟨[], by simp only [nbcFallback]; rw [if_pos hr]⟩
          · obtain ⟨l, hl⟩ := ih
            exact ⟨l, by simp only [nbcFallback]; rw [if_neg hr]; exact hl⟩

/-- C8: the load-more loop clicks at most `max_load_more_clicks` times
(default 5 in `scrapeNbcLatest`); if a click's re-parse yields no new
headlines the loop stops after that single click with the list unchanged;
if the affordance is absent or not clickable it stops without clicking;
when the browser-automation import is unavailable the extractor runs the
single-page requests fallback — and in every mode it returns a value, never
an exception; the selenium-path result never holds two headlines with the
same seen-key (the lowercased text of the stripped candidate, i.e. its
CanonicalKey). -/
theorem claim8_paginated_extraction :
    (∀ (fuel : Nat) (clicks : List ClickState) (seen hs : List String),
        (loadMoreLoop fuel clicks seen hs).2 ≤ fuel) ∧
    (∀ (fuel : Nat) (st : ClickState) (rest : List ClickState) (seen hs : List String),
        st.buttonFound = true → st.clickable = true →
        (latestExtract seen st.pageCands).1 = [] →
        loadMoreLoop (fuel + 1) (st :: rest) seen hs = (hs, 1)) ∧
    (∀ (fuel : Nat) (st : ClickState) (rest : List ClickState) (seen hs : List String),
        st.buttonFound = false ∨ st.clickable = false →
        loadMoreLoop (fuel + 1) (st :: rest) seen hs = (hs, 0)) ∧
    (∀ (init : List String) (clicks : List ClickState) (atts : List FetchOutcome)
        (mc : Nat), scrapeNbcLatest false init clicks atts mc = nbcFallback atts) ∧
    (∀ (cs : List String) (rest : List FetchOutcome),
        nbcFallback (FetchOutcome.response 200 cs :: rest)
          = Except.ok (latestExtract [] cs).1) ∧
    (∀ (sel : Bool) (init : List String) (clicks : List ClickState)
        (atts : List FetchOutcome) (mc : Nat),
        ∃ l, scrapeNbcLatest sel init clicks atts mc = Except.ok l) ∧
    (∀ (init : List String) (clicks : List ClickState) (atts : List FetchOutcome)
        (mc : Nat) (hs : List String),
        scrapeNbcLatest true init clicks atts mc = Except.ok hs →
        (hs.map pyLower).Nodup) := by
  refine ⟨loadMoreLoop_clicks_le, ?_, ?_, ?_, ?_, ?_, ?_⟩
  · intro fuel st rest seen hs hb hc hext
    simp only [loadMoreLoop]
    rw [if_neg (by simp [hb]), if_pos hc, hext]
    simp
  · intro fuel st rest seen hs h
    simp only [loadMoreLoop]
    rcases h with h | h
    · rw [if_pos h]
    · by_cases hb : st.buttonFound = false
      · rw [if_pos hb]
      · rw [if_neg hb, if_neg (by simp [h])]
  · intro init clicks atts mc
    simp [scrapeNbcLatest]
  · intro cs rest
    simp [nbcFallback]
  · intro sel init clicks atts mc
    cases sel with
    | false =>
        obtain ⟨l, hl⟩ := nbcFallback_ok atts
        exact ⟨l, by simpa [scrapeNbcLatest] using hl⟩
    | true =>
        exact ⟨(loadMoreLoop mc clicks (latestExtract [] init).2 (latestExtract [] init).1).1,
          by simp [scrapeNbcLatest]⟩
  · intro init clicks atts mc hs h
    simp only [scrapeNbcLatest, if_pos] at h
    rw [Except.ok.injEq] at h
    subst h
    refine loadMoreLoop_nodup mc clicks _ _ ?_ ?_
    · intro t ht
      rw [latestExtract_seen_eq]
      exact List.mem_append_right _ (List.mem_map_of_mem _ ht)
    · exact latestExtract_nodup init []

/-- C8 witness: concrete instances — the loop respects the bound on empty
input; a click that reveals no new headlines (candidates all seen) stops
after one click; an unfound affordance stops with zero clicks; without the
automation import the extractor equals the single-page fallback, which
parses the first 200-response page; both modes return values; a concrete
selenium-mode run has duplicate-free keys. -/
theorem claim8_witness :
    (loadMoreLoop 5 [] [] []).2 ≤ 5 ∧
    loadMoreLoop (2 + 1) [⟨true, true, []⟩] ["k"] ["Seed headline x"]
        = (["Seed headline x"], 1) ∧
    loadMoreLoop (2 + 1) [⟨false, true, []⟩] [] [] = ([], 0) ∧
    scrapeNbcLatest false ["a"] [] [FetchOutcome.response 200 ["Fallback headline y"]] 5
        = nbcFallback [FetchOutcome.response 200 ["Fallback headline y"]] ∧
    nbcFallback [FetchOutcome.response 200 ["Fallback headline y"]]
        = Except.ok (latestExtract [] ["Fallback headline y"]).1 ∧
    (∃ l, scrapeNbcLatest false [] [] [FetchOutcome.requestError] 5 = Except.ok l) ∧
    ((["Some headline here"].map pyLower).Nodup) :=
  ⟨claim8_paginated_extraction.1 5 [] [] [],
   claim8_paginated_extraction.2.1 2 ⟨true, true, []⟩ [] ["k"] ["Seed headline x"]
      rfl rfl (by decide),
   claim8_paginated_extraction.2.2.1 2 ⟨false, true, []⟩ [] [] [] (Or.inl rfl),
   claim8_paginated_extraction.2.2.2.1 ["a"] []
      [FetchOutcome.response 200 ["Fallback headline y"]] 5,
   claim8_paginated_extraction.2.2.2.2.1 ["Fallback headline y"] [],
   claim8_paginated_extraction.2.2.2.2.2.1 false [] [] [FetchOutcome.requestError] 5,
   claim8_paginated_extraction.2.2.2.2.2.2 ["  Some headline here  "] [] [] 5
      ["Some headline here"] rfl⟩

end HeadlineCollector
